import Mathlib

/-!
Verification development for the car-catalog console application
(`src/function/tools.py`, `shearch.py`, `view.py`, `statistics.py`,
`jerarquia.py`, `data_load.py`, `api_mode.py`).

Python strings are modelled as `List Char` (`Str`); Python `int` as `Int`;
Python dictionaries holding car records as the structure `Auto`; CSV rows as
association lists from header names to cell values.  File contents of the
derived hierarchical views are modelled as association lists from file names
to record lists.  Console printing is modelled by returning the data that the
source computes and displays; `Option`/sum results model the explicit error
paths of the source.
-/

/-- Python strings, modelled as lists of characters. -/
abbrev Str := List Char

/-- Characters removed by Python's `str.strip()` (its whitespace set,
restricted to the ASCII whitespace characters). -/
def esEspacio (c : Char) : Bool :=
  c.toNat = 32 || c.toNat = 9 || c.toNat = 10 || c.toNat = 13 ||
  c.toNat = 11 || c.toNat = 12

/-- Model of Python `str.strip()`: drop leading and trailing whitespace. -/
def strip (s : Str) : Str :=
  ((s.dropWhile esEspacio).reverse.dropWhile esEspacio).reverse

/-- Model of Python `str.lower()` on one character, restricted to ASCII and
the accented letters used by the application's data (the character table of
Python's `lower` is a library primitive; the model covers the characters the
program manipulates). -/
def pyLower (c : Char) : Char :=
  if c = 'Á' then 'á'
  else if c = 'É' then 'é'
  else if c = 'Í' then 'í'
  else if c = 'Ó' then 'ó'
  else if c = 'Ú' then 'ú'
  else if c = 'Ñ' then 'ñ'
  else if c = 'Ü' then 'ü'
  else c.toLower

/-- Canonical (NFD) decomposition of one character, restricted to the accented
lowercase letters reachable after `pyLower` (Unicode's decomposition table is
a library primitive; the model covers the characters the program
manipulates).  769 is the combining acute accent, 771 the combining tilde,
776 the combining diaeresis. -/
def nfdChar (c : Char) : List Char :=
  if c = 'á' then ['a', Char.ofNat 769]
  else if c = 'é' then ['e', Char.ofNat 769]
  else if c = 'í' then ['i', Char.ofNat 769]
  else if c = 'ó' then ['o', Char.ofNat 769]
  else if c = 'ú' then ['u', Char.ofNat 769]
  else if c = 'ñ' then ['n', Char.ofNat 771]
  else if c = 'ü' then ['u', Char.ofNat 776]
  else [c]

/-- Combining diacritical marks (Unicode category Mn inside the combining
diacritical marks block 0x300–0x36F), the marks `normalizar` strips. -/
def esMarcaCombinante (c : Char) : Bool :=
  768 ≤ c.toNat && c.toNat ≤ 879

/-- Model of `normalizar` (tools.py:14): lowercase, strip surrounding
whitespace, NFD-decompose and drop combining marks. -/
def normalizar (texto : Str) : Str :=
  ((strip (texto.map pyLower)).flatMap nfdChar).filter (fun c => !esMarcaCombinante c)

/-- Model of Python's substring operator `sub in s`. -/
def contiene (sub s : Str) : Bool :=
  decide (sub <:+: s)

/-- A car record as built by `leer_csv` (tools.py:76): the five required
fields, with the year already coerced to an integer.  (The source key `Año`
is written `anio` because Lean identifiers cannot contain `ñ`.) -/
structure Auto where
  marca : Str
  modelo : Str
  anio : Int
  tipoCombustible : Str
  transmision : Str
deriving DecidableEq, Repr

/-! ### Decimal integers: Python `str(int)` and `int(float(str))` -/

/-- One decimal digit as a character. -/
def digitoChar (d : Nat) : Char :=
  if d = 0 then '0' else if d = 1 then '1' else if d = 2 then '2'
  else if d = 3 then '3' else if d = 4 then '4' else if d = 5 then '5'
  else if d = 6 then '6' else if d = 7 then '7' else if d = 8 then '8'
  else '9'

/-- Decimal digit string of a natural number (no sign, no leading zeros). -/
def natToStr (n : Nat) : Str :=
  if n < 10 then [digitoChar n]
  else natToStr (n / 10) ++ [digitoChar (n % 10)]
decreasing_by exact Nat.div_lt_self (by omega) (by omega)

/-- Model of Python `str` on an `int`: optional minus sign followed by the
decimal digits. -/
def intToStr (i : Int) : Str :=
  if i < 0 then '-' :: natToStr i.natAbs else natToStr i.natAbs

/-- Decimal digit test. -/
def esDigito (c : Char) : Bool :=
  48 ≤ c.toNat && c.toNat ≤ 57

/-- Value of a decimal digit character. -/
def valorDigito (c : Char) : Nat :=
  c.toNat - 48

/-- Natural number denoted by a digit string. -/
def digitosANat (s : Str) : Nat :=
  s.foldl (fun n c => n * 10 + valorDigito c) 0

/-- Integer part of an unsigned decimal numeral: digits optionally followed
by a decimal point and further digits.  Returns `none` when the text is not
such a numeral. -/
def parteEntera (s : Str) : Option Nat :=
  let ent := s.takeWhile esDigito
  let resto := s.dropWhile esDigito
  if ent = [] then none
  else
    match resto with
    | [] => some (digitosANat ent)
    | '.' :: frac => if frac.all esDigito then some (digitosANat ent) else none
    | _ => none

/-- Model of Python `int(float(s))` as used on the year cell
(tools.py:71): surrounding whitespace is ignored, an optional sign is
allowed, a fractional part is truncated toward zero, and anything else fails
(the model covers the decimal forms; `float`'s exponent and special forms do
not occur in the data).  The numeric value is exact in the model. -/
def parseAnio (s : Str) : Option Int :=
  match strip s with
  | '-' :: resto => (parteEntera resto).map (fun n => -(Int.ofNat n))
  | '+' :: resto => (parteEntera resto).map Int.ofNat
  | resto => (parteEntera resto).map Int.ofNat

/-! ### CSV ingestion and serialization (tools.py `leer_csv` / `escribir_csv`)

`csv.DictReader` hands `leer_csv` one mapping per data row, keyed by the
header row; the mapping is modelled as an association list and the byte-level
CSV quoting of the `csv` module is outside the model (the round-trip claim is
stated at the row level, as in the specification). -/

/-- One CSV data row as seen through `csv.DictReader`: header name to cell. -/
abbrev Fila := List (Str × Str)

/-- Model of `fila.get(clave)`: first value bound to the key, if any. -/
def obtenerCampo : Fila → Str → Option Str
  | [], _ => none
  | (k, v) :: resto, clave => if k = clave then some v else obtenerCampo resto clave

/-- Model of Python's `a or b` on optional strings: `None` and the empty
string are falsy, so either of those selects the right operand. -/
def pyOr : Option Str → Option Str → Option Str
  | some s, b => if s = [] then b else some s
  | none, b => b

/-- Model of the per-row body of `leer_csv` (tools.py:57–82): read each field
through its tolerated header variants, drop the row if any field is missing
or empty or the year does not parse, otherwise build the record with
whitespace-stripped fields and the integer year.  (tools.py:60 queries the
key `Año` twice — the duplicate is kept faithfully as a no-op.) -/
def leerFila (fila : Fila) : Option Auto :=
  let marca := pyOr (obtenerCampo fila ("Marca".toList)) (obtenerCampo fila ("marca".toList))
  let modelo := pyOr (obtenerCampo fila ("Modelo".toList)) (obtenerCampo fila ("modelo".toList))
  let anio := pyOr (pyOr (obtenerCampo fila ("Año".toList)) (obtenerCampo fila ("Año".toList)))
      (obtenerCampo fila ("año".toList))
  let tipoCombustible := pyOr (pyOr (obtenerCampo fila ("TipoCombustible".toList))
      (obtenerCampo fila ("tipoCombustible".toList))) (obtenerCampo fila ("tipocombustible".toList))
  let transmision := pyOr (pyOr (pyOr (obtenerCampo fila ("Transmisión".toList))
      (obtenerCampo fila ("transmisión".toList))) (obtenerCampo fila ("transmision".toList)))
      (obtenerCampo fila ("Transmision".toList))
  match marca, modelo, anio, tipoCombustible, transmision with
  | some m, some mo, some an, some tc, some tr =>
    if m = [] ∨ mo = [] ∨ an = [] ∨ tc = [] ∨ tr = [] then none
    else
      match parseAnio an with
      | some n =>
        some { marca := strip m, modelo := strip mo, anio := n,
               tipoCombustible := strip tc, transmision := strip tr }
      | none => none
  | _, _, _, _, _ => none

/-- Model of the row loop of `leer_csv` (tools.py:52–91): accumulate the
valid records in input order and count the invalid rows; the function also
returns when no valid row survives (the corrupt-file notice is a printed
diagnostic). -/
def leer_csv : List Fila → List Auto × Nat
  | [] => ([], 0)
  | fila :: resto =>
    let r := leer_csv resto
    match leerFila fila with
    | some a => (a :: r.1, r.2)
    | none => (r.1, r.2 + 1)

/-- The canonical header written by `escribir_csv` (tools.py:110). -/
def encabezado : List Str :=
  [("Marca".toList), ("Modelo".toList), ("Año".toList),
   ("TipoCombustible".toList), ("Transmisión".toList)]

/-- Model of one row written by `escribir_csv` (tools.py:114–121): the five
fields in canonical column order, the year as a plain decimal integer. -/
def serializar_auto (a : Auto) : List Str :=
  [a.marca, a.modelo, intToStr a.anio, a.tipoCombustible, a.transmision]

/-- Model of the file written by `escribir_csv`: header row then one row per
record, in order. -/
def escribir_csv (autos : List Auto) : List (List Str) :=
  encabezado :: autos.map serializar_auto

/-- Model of `csv.DictReader` pairing one data row with the header row. -/
def filaDe (cabecera celdas : List Str) : Fila :=
  cabecera.zip celdas

/-! ### Search and filters (shearch.py, data_load.py) -/

/-- Model of `buscar_auto_recursivo` (shearch.py:15–46): index recursion over
the list, appending to the accumulator each record whose normalized brand or
model contains the normalized query. -/
def buscar_auto_recursivo (autos : List Auto) (busqueda : Str) (indice : Nat)
    (encontrados : List Auto) : List Auto :=
  if h : autos.length ≤ indice then encontrados
  else
    let auto_actual := autos.get ⟨indice, by omega⟩
    let busqueda_norm := normalizar busqueda
    if contiene busqueda_norm (normalizar auto_actual.marca) ||
        contiene busqueda_norm (normalizar auto_actual.modelo) then
      buscar_auto_recursivo autos busqueda (indice + 1) (encontrados ++ [auto_actual])
    else
      buscar_auto_recursivo autos busqueda (indice + 1) encontrados
termination_by autos.length - indice

/-- Model of the iterative list-comprehension filter used by `editar_auto`
(data_load.py:91–95) and `borrar_auto` (data_load.py:175–179): keep records
whose normalized brand or model contains the normalized query. -/
def filtrar_marca_modelo (autos : List Auto) (busqueda : Str) : List Auto :=
  let busqueda_norm := normalizar busqueda
  autos.filter (fun a =>
    contiene busqueda_norm (normalizar a.marca) || contiene busqueda_norm (normalizar a.modelo))

/-- Model of `filtrar_año` (shearch.py:107–139) after the two bounds have
been read (they are non-negative integers by `_leer_entero_no_negativo`):
an inverted range is rejected with an error message and no filtering is
performed (`none`), otherwise the records with year in the inclusive range
are kept in input order.  (The source name contains `ñ`; Lean identifiers
cannot, hence `anio`.) -/
def filtrar_anio (autos : List Auto) (minimo maximo : Nat) : Option (List Auto) :=
  if minimo > maximo then none
  else some (autos.filter (fun a => decide ((minimo : Int) ≤ a.anio ∧ a.anio ≤ (maximo : Int))))

/-! ### Sorting (view.py `ordenar_autos`) -/

/-- The five canonical sort fields of `ordenar_autos`. -/
inductive CampoOrden where
  | marca
  | modelo
  | anio
  | tipoCombustible
  | transmision
deriving DecidableEq, Repr

/-- Model of the field-detection chain of `ordenar_autos` (view.py:107–121):
tolerant containment tests on the normalized field name, in source order;
`none` models the invalid-field error message. -/
def detectar_campo (campo : Str) : Option CampoOrden :=
  let campo_norm := normalizar campo
  if contiene ("marca".toList) campo_norm then some .marca
  else if contiene ("modelo".toList) campo_norm then some .modelo
  else if contiene ("año".toList) campo_norm || contiene ("ano".toList) campo_norm then some .anio
  else if contiene ("combustible".toList) campo_norm || contiene ("tipo".toList) campo_norm then
    some .tipoCombustible
  else if contiene ("transmision".toList) campo_norm then some .transmision
  else none

/-- Sort key of a record for a canonical field, as used by the `sorted`
calls of `ordenar_autos` (view.py:123–134): the normalized text for string
fields, the integer year for the year field. -/
def claveOrden : CampoOrden → Auto → Str ⊕ Int
  | .marca, a => .inl (normalizar a.marca)
  | .modelo, a => .inl (normalizar a.modelo)
  | .anio, a => .inr a.anio
  | .tipoCombustible, a => .inl (normalizar a.tipoCombustible)
  | .transmision, a => .inl (normalizar a.transmision)

/-- Comparison of sort keys: lexicographic on normalized text (Python string
comparison), numeric on years.  Keys of one `ordenar_autos` call always use
the same constructor; the mixed cases are arbitrary. -/
def claveLe : Str ⊕ Int → Str ⊕ Int → Prop
  | .inl s, .inl t => s ≤ t
  | .inr m, .inr n => m ≤ n
  | .inl _, .inr _ => True
  | .inr _, .inl _ => False

instance : DecidableRel claveLe := fun x y => by
  cases x <;> cases y <;> simp only [claveLe] <;> infer_instance

/-- Model of Python's stable `sorted(autos, key=..., reverse=...)`: a stable
sort by the key, with the comparison reversed when descending.  Insertion
sort is the canonical stable sort. -/
def pySorted (f : CampoOrden) (descendente : Bool) (autos : List Auto) : List Auto :=
  if descendente then
    autos.insertionSort (fun a b => claveLe (claveOrden f b) (claveOrden f a))
  else
    autos.insertionSort (fun a b => claveLe (claveOrden f a) (claveOrden f b))

/-- Model of `ordenar_autos` (view.py:85–146): detect the canonical field
from the tolerant name, reject unrecognized names (`none`), and return the
sorted list that the source displays. -/
def ordenar_autos (autos : List Auto) (campo : Str) (descendente : Bool) :
    Option (List Auto) :=
  match detectar_campo campo with
  | none => none
  | some f => some (pySorted f descendente autos)

/-- The order the displayed list must satisfy: ascending by sort key, or
descending when requested. -/
def relOrden (f : CampoOrden) (descendente : Bool) (a b : Auto) : Prop :=
  if descendente then claveLe (claveOrden f b) (claveOrden f a)
  else claveLe (claveOrden f a) (claveOrden f b)

/-! ### Statistics (statistics.py) -/

/-- Model of the Python dict update `conteo[k] = conteo.get(k, 0) + 1` on an
insertion-ordered dictionary: increment in place, or append a new key. -/
def dictIncr (conteo : List (Str × Nat)) (clave : Str) : List (Str × Nat) :=
  match conteo with
  | [] => [(clave, 1)]
  | (k, c) :: resto => if k = clave then (k, c + 1) :: resto else (k, c) :: dictIncr resto clave

/-- The index recursion shared by `contar_autos_por_marca_recursivo`,
`contar_autos_por_combustible_recursivo` and
`contar_autos_por_transmision_recursivo` (statistics.py:11–95), which differ
only in the field they count. -/
def contar_recursivo (clave : Auto → Str) (autos : List Auto) (indice : Nat)
    (conteo : List (Str × Nat)) : List (Str × Nat) :=
  if h : autos.length ≤ indice then conteo
  else contar_recursivo clave autos (indice + 1) (dictIncr conteo (clave (autos.get ⟨indice, by omega⟩)))
termination_by autos.length - indice

/-- Model of `contar_autos_por_marca_recursivo` (statistics.py:11). -/
def contar_autos_por_marca_recursivo (autos : List Auto) : List (Str × Nat) :=
  contar_recursivo (fun a => a.marca) autos 0 []

/-- Model of `contar_autos_por_combustible_recursivo` (statistics.py:40). -/
def contar_autos_por_combustible_recursivo (autos : List Auto) : List (Str × Nat) :=
  contar_recursivo (fun a => a.tipoCombustible) autos 0 []

/-- Model of `contar_autos_por_transmision_recursivo` (statistics.py:69). -/
def contar_autos_por_transmision_recursivo (autos : List Auto) : List (Str × Nat) :=
  contar_recursivo (fun a => a.transmision) autos 0 []

/-- Model of `sumar_años_recursivo` (statistics.py:98–118). -/
def sumar_anios_recursivo (autos : List Auto) (indice : Nat) : Int :=
  if h : autos.length ≤ indice then 0
  else (autos.get ⟨indice, by omega⟩).anio + sumar_anios_recursivo autos (indice + 1)
termination_by autos.length - indice

/-- Model of Python `min(x :: xs, key=f)`: fold keeping the current best,
replaced only when strictly smaller, so the first minimum wins. -/
def pyMinBy (f : Auto → Int) (x : Auto) (xs : List Auto) : Auto :=
  xs.foldl (fun b a => if f a < f b then a else b) x

/-- Model of Python `max(x :: xs, key=f)`: the first maximum wins. -/
def pyMaxBy (f : Auto → Int) (x : Auto) (xs : List Auto) : Auto :=
  xs.foldl (fun b a => if f b < f a then a else b) x

/-- Model of Python's ordering on `(str, int)` pairs, used by
`sorted(conteo.items())`: lexicographic on the key, then on the count. -/
def pyTupleLe (p q : Str × Nat) : Prop :=
  p.1 < q.1 ∨ (p.1 = q.1 ∧ p.2 ≤ q.2)

instance : DecidableRel pyTupleLe := fun p q => by
  unfold pyTupleLe; infer_instance

/-- Count bound to a key of an insertion-ordered count dictionary. -/
def buscarConteo : List (Str × Nat) → Str → Option Nat
  | [], _ => none
  | (k, c) :: resto, clave => if k = clave then some c else buscarConteo resto clave

/-- What a reported grouping must satisfy: keys strictly ascending, each
entry carrying the number of records with that field value, and the keys
being exactly the field values present. -/
def grupoCorrecto (clave : Auto → Str) (autos : List Auto) (items : List (Str × Nat)) :
    Prop :=
  List.Sorted (· < ·) (items.map Prod.fst) ∧
  (∀ p ∈ items, p.2 = autos.countP (fun a => decide (clave a = p.1))) ∧
  (∀ k, k ∈ items.map Prod.fst ↔ ∃ a ∈ autos, clave a = k)

/-- Model of `sorted(conteo.items())` (statistics.py:172,176,180). -/
def ordenarItems (conteo : List (Str × Nat)) : List (Str × Nat) :=
  conteo.insertionSort pyTupleLe

/-- The data computed and printed by `mostrar_estadisticas`. -/
structure Estadisticas where
  mas_antiguo : Auto
  mas_nuevo : Auto
  promedio_anio : Int
  por_marca : List (Str × Nat)
  por_combustible : List (Str × Nat)
  por_transmision : List (Str × Nat)
deriving DecidableEq, Repr

/-- Model of `mostrar_estadisticas` (statistics.py:121–182): an empty list is
answered with the explicit no-data message (`none`, and the guarded mean is
never divided by zero); otherwise the oldest and newest record (Python
`min`/`max`, first occurrence on ties), the mean year truncated toward zero
(`int(suma/len)`), and the three per-field counts sorted by key. -/
def mostrar_estadisticas (autos : List Auto) : Option Estadisticas :=
  match autos with
  | [] => none
  | x :: xs =>
    some { mas_antiguo := pyMinBy (fun a => a.anio) x xs,
           mas_nuevo := pyMaxBy (fun a => a.anio) x xs,
           promedio_anio := Int.tdiv (sumar_anios_recursivo (x :: xs) 0) ((x :: xs).length : Int),
           por_marca := ordenarItems (contar_autos_por_marca_recursivo (x :: xs)),
           por_combustible := ordenarItems (contar_autos_por_combustible_recursivo (x :: xs)),
           por_transmision := ordenarItems (contar_autos_por_transmision_recursivo (x :: xs)) }

/-! ### Hierarchical derived views (jerarquia.py) -/

/-- Model of `limpiar_nombre_archivo` (jerarquia.py:54–71): replace the
reserved filesystem characters by a dash, strip surrounding whitespace, and
fall back to `SinNombre` when nothing remains.  (34 is the double quote,
92 the backslash.) -/
def limpiar_nombre_archivo (nombre : Str) : Str :=
  let reemplazado := nombre.map (fun c =>
    if c = '/' || c = Char.ofNat 92 || c = ':' || c = '*' || c = '?' ||
        c = Char.ofNat 34 || c = '<' || c = '>' || c = '|' then '-' else c)
  let limpio := strip reemplazado
  if limpio = [] then "SinNombre".toList else limpio

/-- One derived directory, modelled as an association list from file name to
the record rows the file holds (each file also carries the canonical header,
which is the same everywhere and is omitted from the model). -/
abbrev Directorio := List (Str × List Auto)

/-- Model of opening a file with mode `"w"` inside a directory: overwrite the
file if it exists, create it otherwise. -/
def escribirArchivo : Directorio → Str → List Auto → Directorio
  | [], nombre, contenido => [(nombre, contenido)]
  | (n, c) :: resto, nombre, contenido =>
    if n = nombre then (n, contenido) :: resto
    else (n, c) :: escribirArchivo resto nombre contenido

/-- Contents of a file of a directory, if present. -/
def buscarArchivo : Directorio → Str → Option (List Auto)
  | [], _ => none
  | (n, c) :: resto, nombre => if n = nombre then some c else buscarArchivo resto nombre

/-- The Python grouping loop `dict` update `grupos[k].append(auto)` /
`grupos[k] = [auto]` on an insertion-ordered dictionary. -/
def dictAppend (grupos : List (Str × List Auto)) (clave : Str) (a : Auto) :
    List (Str × List Auto) :=
  match grupos with
  | [] => [(clave, [a])]
  | (k, l) :: resto =>
    if k = clave then (k, l ++ [a]) :: resto else (k, l) :: dictAppend resto clave a

/-- Grouping of the records by a field, in first-occurrence order of the
group values, each group in input order (the grouping loops of
jerarquia.py:87–92, 126–131, 165–170). -/
def agruparPor (clave : Auto → Str) (autos : List Auto) : List (Str × List Auto) :=
  autos.foldl (fun grupos a => dictAppend grupos (clave a) a) []

/-- File name a group value is stored under in its derived directory
(jerarquia.py:96,135,174): the sanitized value plus the `.csv` suffix. -/
def nombreArchivo (valor : Str) : Str :=
  limpiar_nombre_archivo valor ++ ".csv".toList

/-- The shared body of `organizar_por_marca`, `organizar_por_combustible` and
`organizar_por_transmision` (jerarquia.py:74–188), which differ only in the
grouped field: group the records, then rewrite one file per group, named by
the sanitized group value, holding exactly that group's records.  Files of
group values that do not occur in `autos` are left untouched. -/
def organizar_por_grupo (clave : Auto → Str) (autos : List Auto) (dir : Directorio) :
    Directorio :=
  (agruparPor clave autos).foldl
    (fun d g => escribirArchivo d (nombreArchivo g.1) g.2) dir

/-- Model of `organizar_por_marca` (jerarquia.py:74–110). -/
def organizar_por_marca (autos : List Auto) (dir : Directorio) : Directorio :=
  organizar_por_grupo (fun a => a.marca) autos dir

/-- Model of `organizar_por_combustible` (jerarquia.py:113–149). -/
def organizar_por_combustible (autos : List Auto) (dir : Directorio) : Directorio :=
  organizar_por_grupo (fun a => a.tipoCombustible) autos dir

/-- Model of `organizar_por_transmision` (jerarquia.py:152–188). -/
def organizar_por_transmision (autos : List Auto) (dir : Directorio) : Directorio :=
  organizar_por_grupo (fun a => a.transmision) autos dir

/-- The three derived directory trees. -/
structure Subgrupos where
  por_marca : Directorio
  por_combustible : Directorio
  por_transmision : Directorio
deriving DecidableEq, Repr

/-- Model of `sincronizar_estructura_jerarquica` (jerarquia.py:191–209):
idempotent directory creation (no effect on the modelled file contents),
then the three per-field reorganizations. -/
def sincronizar_estructura_jerarquica (autos : List Auto) (s : Subgrupos) : Subgrupos :=
  { por_marca := organizar_por_marca autos s.por_marca,
    por_combustible := organizar_por_combustible autos s.por_combustible,
    por_transmision := organizar_por_transmision autos s.por_transmision }

/-! ### Remote listing (api_mode.py `obtener_autos_api`) -/

/-- Outcome of the underlying `api_client.listar_autos` call as seen by
`obtener_autos_api`: a JSON array payload, a malformed (non-list) payload, or
a raised transport/HTTP exception carrying its message. -/
inductive RespuestaApi where
  | lista : List Auto → RespuestaApi
  | noLista : RespuestaApi
  | excepcion : Str → RespuestaApi
deriving DecidableEq, Repr

/-- Model of `obtener_autos_api` (api_mode.py:50–85): the returned record
list together with the diagnostic messages printed on that path.  Every
branch returns; no exception escapes (the `except Exception` handler turns a
raise into an empty result with a diagnostic). -/
def obtener_autos_api (resp : RespuestaApi) : List Auto × List Str :=
  match resp with
  | .lista items =>
    if items.isEmpty then ([], [("No tenemos ese auto en nuestra base de datos.".toList)])
    else (items, [])
  | .noLista => ([], [("Error: La API no devolvio una lista.".toList)])
  | .excepcion e => ([], [(("Error al obtener autos desde la API: ".toList) ++ e)])

/-! ### Statement-side definitions -/

/-- The search predicate of the specification: the normalized query occurs in
the normalized brand or in the normalized model. -/
def coincideBusqueda (busqueda : Str) (a : Auto) : Bool :=
  contiene (normalizar busqueda) (normalizar a.marca) ||
  contiene (normalizar busqueda) (normalizar a.modelo)

/-- A string with no leading or trailing whitespace (`strip` fixes it). -/
def sinEspaciosExtremos (s : Str) : Prop :=
  strip s = s

/-- A valid record in the sense of the round-trip claim: the four string
fields non-empty and free of surrounding whitespace (the year is any
integer). -/
def autoValido (a : Auto) : Prop :=
  a.marca ≠ [] ∧ sinEspaciosExtremos a.marca ∧
  a.modelo ≠ [] ∧ sinEspaciosExtremos a.modelo ∧
  a.tipoCombustible ≠ [] ∧ sinEspaciosExtremos a.tipoCombustible ∧
  a.transmision ≠ [] ∧ sinEspaciosExtremos a.transmision

/-- The element of `autos` that is optimal for the strict preference `mejor`,
with ties broken by first occurrence: some decomposition `l1 ++ m :: l2` of
the list where no element beats `m` and `m` strictly beats everything before
it. -/
def esPrimeroPor (mejor : Auto → Auto → Prop) (autos : List Auto) (m : Auto) : Prop :=
  ∃ l1 l2, autos = l1 ++ m :: l2 ∧ (∀ a ∈ autos, ¬ mejor a m) ∧ ∀ b ∈ l1, mejor m b

/-- Group-file-name injectivity over the group values present in a record
set: distinct group values get distinct sanitized file names (otherwise the
source lets one group's file overwrite another's). -/
def nombresInyectivos (clave : Auto → Str) (autos : List Auto) : Prop :=
  ∀ a ∈ autos, ∀ b ∈ autos,
    limpiar_nombre_archivo (clave a) = limpiar_nombre_archivo (clave b) → clave a = clave b

/-- What one reorganization pass guarantees for one derived directory: each
group value present in the record set has its file rewritten to exactly that
group's records (in input order), and every other file name keeps its
previous contents. -/
def directorioSincronizado (clave : Auto → Str) (autos : List Auto) (dir dir' : Directorio) :
    Prop :=
  (∀ a ∈ autos, buscarArchivo dir' (nombreArchivo (clave a)) =
      some (autos.filter (fun b => decide (clave b = clave a)))) ∧
  (∀ nombre, (∀ a ∈ autos, nombre ≠ nombreArchivo (clave a)) →
      buscarArchivo dir' nombre = buscarArchivo dir nombre)

/-- Sample records used by the concrete witnesses. -/
def autoToyota : Auto :=
  { marca := "Toyota".toList, modelo := "Corolla".toList, anio := 2020,
    tipoCombustible := "Nafta".toList, transmision := "Manual".toList }

def autoFord : Auto :=
  { marca := "Ford".toList, modelo := "Focus".toList, anio := 1999,
    tipoCombustible := "Diesel".toList, transmision := "Automatica".toList }

def autoTesla : Auto :=
  { marca := "Tesla".toList, modelo := "Model 3".toList, anio := 2020,
    tipoCombustible := "Electrico".toList, transmision := "Automatica".toList }

/-- A CSV row whose year cell `1800` is outside the specified range. -/
def filaFueraDeRango : Fila :=
  filaDe encabezado
    ["Ford".toList, "Fiesta".toList, "1800".toList, "Nafta".toList, "Manual".toList]

/-- The record `leer_csv` builds from `filaFueraDeRango`. -/
def autoFueraDeRango : Auto :=
  { marca := "Ford".toList, modelo := "Fiesta".toList, anio := 1800,
    tipoCombustible := "Nafta".toList, transmision := "Manual".toList }

/-- Records used by the stale-file counterexample of the view synchronizer. -/
def autoGas : Auto :=
  { marca := "Ford".toList, modelo := "Fiesta".toList, anio := 2018,
    tipoCombustible := "Gasolina".toList, transmision := "Manual".toList }

def autoElec : Auto :=
  { marca := "Tesla".toList, modelo := "Model 3".toList, anio := 2022,
    tipoCombustible := "Electrico".toList, transmision := "Automatica".toList }

/-! ### Ingestion: accumulation and counting -/

theorem leer_csv_eq (filas : List Fila) :
    leer_csv filas =
      (filas.filterMap leerFila, filas.countP (fun f => (leerFila f).isNone)) := by
  induction filas with
  | nil => rfl
  | cons f resto ih =>
    simp only [leer_csv, ih, List.filterMap_cons, List.countP_cons]
    cases h : leerFila f <;> simp [h]

theorem leer_csv_longitud (filas : List Fila) :
    (leer_csv filas).1.length + (leer_csv filas).2 = filas.length := by
  induction filas with
  | nil => rfl
  | cons f resto ih =>
    simp only [leer_csv]
    cases h : leerFila f <;> simp [h] <;> omega

/-- C7: `leer_csv` accumulates exactly the rows `leerFila` accepts, in input
order, counts every rejected row, and their numbers add up to the number of
input rows; a file with no valid row simply yields the empty list together
with its count, the function never fails. -/
theorem leer_csv_acumula_y_cuenta (filas : List Fila) :
    (leer_csv filas).1 = filas.filterMap leerFila ∧
    (leer_csv filas).2 = filas.countP (fun f => (leerFila f).isNone) ∧
    (leer_csv filas).1.length + (leer_csv filas).2 = filas.length := by
  refine ⟨?_, ?_, leer_csv_longitud filas⟩ <;> rw [leer_csv_eq]

/-- C1 counterexample: a row whose year cell is `1800` — outside
`[1900, 2100]` — is not dropped by `leer_csv`; the record is stored with the
out-of-range year. -/
theorem leer_csv_conserva_anio_fuera_de_rango :
    (leer_csv [filaFueraDeRango]).1 = [autoFueraDeRango] ∧
    autoFueraDeRango.anio = 1800 ∧
    ¬ (1900 ≤ autoFueraDeRango.anio ∧ autoFueraDeRango.anio ≤ 2100) := by
  decide

/-- C1 (amended): the records held after ingestion are exactly those whose
row passes `leerFila` — all five fields present and non-empty and the year
cell parseable as an integer; no year-range test is applied by `leer_csv`. -/
theorem leer_csv_membresia (filas : List Fila) (a : Auto) :
    a ∈ (leer_csv filas).1 ↔ ∃ fila ∈ filas, leerFila fila = some a := by
  rw [leer_csv_eq]
  exact List.mem_filterMap

/-! ### Remote listing -/

/-- C9: when the backend payload is not a list, or the request raised, the
listing returns the empty record list together with a non-empty diagnostic;
every branch of `obtener_autos_api` returns normally. -/
theorem obtener_autos_api_maneja_errores (resp : RespuestaApi)
    (h : resp = RespuestaApi.noLista ∨ ∃ e, resp = RespuestaApi.excepcion e) :
    (obtener_autos_api resp).1 = [] ∧ (obtener_autos_api resp).2 ≠ [] := by
  rcases h with h | ⟨e, h⟩ <;> subst h <;> simp [obtener_autos_api]

theorem obtener_autos_api_maneja_errores_testigo :
    (obtener_autos_api RespuestaApi.noLista).1 = [] ∧
    (obtener_autos_api RespuestaApi.noLista).2 ≠ [] :=
  obtener_autos_api_maneja_errores RespuestaApi.noLista (Or.inl rfl)

/-! ### Year-range filter -/

/-- C8: an inverted range (`minimo > maximo`) is rejected explicitly
(`none`, distinguishable from an empty match `some []`) with no filtering
performed; a well-formed range yields exactly the records whose year lies in
the inclusive range, in input order (a sublist of the input). -/
theorem filtrar_anio_spec (autos : List Auto) (minimo maximo : Nat) :
    (maximo < minimo → filtrar_anio autos minimo maximo = none) ∧
    (minimo ≤ maximo → ∃ l, filtrar_anio autos minimo maximo = some l ∧
      l.Sublist autos ∧
      ∀ a, a ∈ l ↔ a ∈ autos ∧ (minimo : Int) ≤ a.anio ∧ a.anio ≤ (maximo : Int)) := by
  constructor
  · intro h
    unfold filtrar_anio
    rw [if_pos h]
  · intro h
    refine ⟨autos.filter (fun a => decide ((minimo : Int) ≤ a.anio ∧ a.anio ≤ (maximo : Int))),
      ?_, List.filter_sublist _, ?_⟩
    · unfold filtrar_anio
      rw [if_neg (by omega)]
    · intro a
      simp [List.mem_filter]

theorem filtrar_anio_spec_testigo :
    filtrar_anio [autoToyota] 2010 2000 = none ∧
    ∃ l, filtrar_anio [autoToyota] 2000 2021 = some l ∧ l.Sublist [autoToyota] ∧
      ∀ a, a ∈ l ↔ a ∈ [autoToyota] ∧ (2000 : Int) ≤ a.anio ∧ a.anio ≤ (2021 : Int) :=
  ⟨(filtrar_anio_spec [autoToyota] 2010 2000).1 (by decide),
   (filtrar_anio_spec [autoToyota] 2000 2021).2 (by decide)⟩

/-! ### Search: the recursive traversal is a filter -/

theorem contiene_nil (s : Str) : contiene [] s = true :=
  decide_eq_true List.nil_infix

theorem buscar_auto_recursivo_eq (autos : List Auto) (b : Str) :
    ∀ (n indice : Nat) (encontrados : List Auto), autos.length - indice = n →
      buscar_auto_recursivo autos b indice encontrados =
        encontrados ++ (autos.drop indice).filter (coincideBusqueda b) := by
  intro n
  induction n with
  | zero =>
    intro indice enc h
    have hle : autos.length ≤ indice := by omega
    rw [buscar_auto_recursivo, dif_pos hle, List.drop_eq_nil_of_le hle]
    simp
  | succ k ih =>
    intro indice enc h
    have hlt : indice < autos.length := by omega
    rw [buscar_auto_recursivo, dif_neg (by omega)]
    simp only [List.get_eq_getElem]
    rw [List.drop_eq_getElem_cons hlt, List.filter_cons]
    by_cases hc : coincideBusqueda b autos[indice] = true
    · have hc' := hc
      simp only [coincideBusqueda] at hc'
      rw [if_pos hc', if_pos hc, ih (indice + 1) (enc ++ [autos[indice]]) (by omega)]
      simp
    · have hc' : ¬ (contiene (normalizar b) (normalizar autos[indice].marca) ||
          contiene (normalizar b) (normalizar autos[indice].modelo)) = true := by
        simpa [coincideBusqueda] using hc
      rw [if_neg hc', if_neg hc, ih (indice + 1) enc (by omega)]

/-- C3: the recursive search returns exactly the records whose normalized
brand or normalized model contains the normalized query, in input order; in
particular the empty query returns the whole input. -/
theorem buscar_auto_recursivo_filtra (autos : List Auto) (busqueda : Str) :
    buscar_auto_recursivo autos busqueda 0 [] = autos.filter (coincideBusqueda busqueda) ∧
    (busqueda = [] → buscar_auto_recursivo autos busqueda 0 [] = autos) := by
  have h := buscar_auto_recursivo_eq autos busqueda autos.length 0 [] (by omega)
  simp only [List.drop_zero, List.nil_append] at h
  refine ⟨h, ?_⟩
  intro hb
  subst hb
  rw [h, List.filter_eq_self.mpr]
  intro a _
  simp [coincideBusqueda, contiene_nil, normalizar, strip]

theorem buscar_auto_recursivo_filtra_testigo :
    buscar_auto_recursivo [autoToyota, autoFord] ("toy".toList) 0 [] =
      List.filter (coincideBusqueda ("toy".toList)) [autoToyota, autoFord] ∧
    buscar_auto_recursivo [autoToyota, autoFord] [] 0 [] = [autoToyota, autoFord] :=
  ⟨(buscar_auto_recursivo_filtra [autoToyota, autoFord] ("toy".toList)).1,
   (buscar_auto_recursivo_filtra [autoToyota, autoFord] []).2 rfl⟩

/-- C10: the recursive search agrees — same elements, same order — with the
iterative list-comprehension filter used by `editar_auto` and `borrar_auto`. -/
theorem buscar_auto_recursivo_eq_filtro_iterativo (autos : List Auto) (busqueda : Str) :
    buscar_auto_recursivo autos busqueda 0 [] = filtrar_marca_modelo autos busqueda := by
  have h := buscar_auto_recursivo_eq autos busqueda autos.length 0 [] (by omega)
  simpa [filtrar_marca_modelo, coincideBusqueda] using h

/-! ### Round trip: decimal digits and stripping -/

theorem esDigito_digitoChar (d : Nat) (h : d < 10) : esDigito (digitoChar d) = true := by
  interval_cases d <;> decide

theorem valorDigito_digitoChar (d : Nat) (h : d < 10) : valorDigito (digitoChar d) = d := by
  interval_cases d <;> decide

theorem natToStr_digitos (n : Nat) : ∀ c ∈ natToStr n, esDigito c = true := by
  induction n using Nat.strong_induction_on with
  | _ n ih =>
    rw [natToStr]
    by_cases h : n < 10
    · rw [if_pos h]
      intro c hc
      simp only [List.mem_singleton] at hc
      subst hc
      exact esDigito_digitoChar n h
    · rw [if_neg h]
      intro c hc
      rcases List.mem_append.mp hc with hc | hc
      · exact ih (n / 10) (Nat.div_lt_self (by omega) (by omega)) c hc
      · simp only [List.mem_singleton] at hc
        subst hc
        exact esDigito_digitoChar (n % 10) (Nat.mod_lt n (by omega))

theorem natToStr_ne_nil (n : Nat) : natToStr n ≠ [] := by
  rw [natToStr]
  split <;> simp

theorem intToStr_ne_nil (i : Int) : intToStr i ≠ [] := by
  unfold intToStr
  split
  · simp
  · exact natToStr_ne_nil _

theorem digitosANat_append (s : Str) (c : Char) :
    digitosANat (s ++ [c]) = digitosANat s * 10 + valorDigito c := by
  simp [digitosANat, List.foldl_append]

theorem digitosANat_natToStr (n : Nat) : digitosANat (natToStr n) = n := by
  induction n using Nat.strong_induction_on with
  | _ n ih =>
    rw [natToStr]
    by_cases h : n < 10
    · rw [if_pos h]
      simp [digitosANat, valorDigito_digitoChar n h]
    · rw [if_neg h, digitosANat_append,
        ih (n / 10) (Nat.div_lt_self (by omega) (by omega)),
        valorDigito_digitoChar (n % 10) (Nat.mod_lt n (by omega))]
      omega

theorem esDigito_no_espacio (c : Char) (h : esDigito c = true) : esEspacio c = false := by
  simp only [esDigito, Bool.and_eq_true, decide_eq_true_eq] at h
  simp only [esEspacio]
  simp only [Bool.or_eq_false_iff, decide_eq_false_iff_not]
  omega

theorem dropWhile_eq_self_de_todos {p : Char → Bool} :
    ∀ s : Str, (∀ c ∈ s, p c = false) → s.dropWhile p = s := by
  intro s h
  cases s with
  | nil => rfl
  | cons c resto =>
    rw [List.dropWhile_cons, if_neg]
    simp [h c (by simp)]

theorem strip_eq_self_de_sin_espacios (s : Str) (h : ∀ c ∈ s, esEspacio c = false) :
    strip s = s := by
  unfold strip
  rw [dropWhile_eq_self_de_todos s h,
    dropWhile_eq_self_de_todos s.reverse (fun c hc => h c (List.mem_reverse.mp hc)),
    List.reverse_reverse]

theorem takeWhile_eq_self_de_todos {p : Char → Bool} :
    ∀ s : Str, (∀ c ∈ s, p c = true) → s.takeWhile p = s := by
  intro s h
  induction s with
  | nil => rfl
  | cons c resto ih =>
    rw [List.takeWhile_cons, if_pos (h c (by simp))]
    rw [ih (fun c hc => h c (by simp [hc]))]

theorem parteEntera_natToStr (n : Nat) : parteEntera (natToStr n) = some n := by
  unfold parteEntera
  rw [takeWhile_eq_self_de_todos (natToStr n) (natToStr_digitos n),
    List.dropWhile_eq_nil_iff.mpr (fun c hc => natToStr_digitos n c hc)]
  rw [if_neg (natToStr_ne_nil n)]
  simp [digitosANat_natToStr]

theorem parseAnio_intToStr (i : Int) : parseAnio (intToStr i) = some i := by
  have hsinesp : ∀ c ∈ intToStr i, esEspacio c = false := by
    unfold intToStr
    split
    · intro c hc
      rcases List.mem_cons.mp hc with hc | hc
      · subst hc; decide
      · exact esDigito_no_espacio c (natToStr_digitos _ c hc)
    · exact fun c hc => esDigito_no_espacio c (natToStr_digitos _ c hc)
  have hstrip := strip_eq_self_de_sin_espacios (intToStr i) hsinesp
  by_cases h : i < 0
  · have hi : intToStr i = '-' :: natToStr i.natAbs := by
      unfold intToStr; rw [if_pos h]
    unfold parseAnio
    rw [hstrip, hi]
    show (parteEntera (natToStr i.natAbs)).map (fun n => -(Int.ofNat n)) = some i
    rw [parteEntera_natToStr]
    show some (-(Int.ofNat i.natAbs)) = some i
    have hn : -(Int.ofNat i.natAbs) = i := by rw [Int.ofNat_eq_coe]; omega
    rw [hn]
  · have hi : intToStr i = natToStr i.natAbs := by
      unfold intToStr; rw [if_neg h]
    obtain ⟨c, resto, hc⟩ := List.exists_cons_of_ne_nil (natToStr_ne_nil i.natAbs)
    have hdig : esDigito c = true := natToStr_digitos i.natAbs c (by rw [hc]; simp)
    have hcn : 48 ≤ c.toNat ∧ c.toNat ≤ 57 := by
      simpa [esDigito, Bool.and_eq_true, decide_eq_true_eq] using hdig
    unfold parseAnio
    rw [hstrip, hi, hc]
    split
    · rename_i resto2 heq
      exfalso
      injection heq with h1 _
      have : c.toNat = 45 := by rw [h1]; decide
      omega
    · rename_i resto2 heq
      exfalso
      injection heq with h1 _
      have : c.toNat = 43 := by rw [h1]; decide
      omega
    · rw [← hc, parteEntera_natToStr]
      show some (Int.ofNat i.natAbs) = some i
      have hn : Int.ofNat i.natAbs = i := by rw [Int.ofNat_eq_coe]; omega
      rw [hn]

theorem leerFila_serializar (a : Auto) (h : autoValido a) :
    leerFila (filaDe encabezado (serializar_auto a)) = some a := by
  obtain ⟨h1, h2, h3, h4, h5, h6, h7, h8⟩ := h
  have eM : obtenerCampo (filaDe encabezado (serializar_auto a)) ("Marca".toList) =
      some a.marca := rfl
  have em : obtenerCampo (filaDe encabezado (serializar_auto a)) ("marca".toList) = none := rfl
  have eMo : obtenerCampo (filaDe encabezado (serializar_auto a)) ("Modelo".toList) =
      some a.modelo := rfl
  have emo : obtenerCampo (filaDe encabezado (serializar_auto a)) ("modelo".toList) = none := rfl
  have eA : obtenerCampo (filaDe encabezado (serializar_auto a)) ("Año".toList) =
      some (intToStr a.anio) := rfl
  have ea : obtenerCampo (filaDe encabezado (serializar_auto a)) ("año".toList) = none := rfl
  have eC1 : obtenerCampo (filaDe encabezado (serializar_auto a)) ("TipoCombustible".toList) =
      some a.tipoCombustible := rfl
  have eC2 : obtenerCampo (filaDe encabezado (serializar_auto a)) ("tipoCombustible".toList) =
      none := rfl
  have eC3 : obtenerCampo (filaDe encabezado (serializar_auto a)) ("tipocombustible".toList) =
      none := rfl
  have eT1 : obtenerCampo (filaDe encabezado (serializar_auto a)) ("Transmisión".toList) =
      some a.transmision := rfl
  have eT2 : obtenerCampo (filaDe encabezado (serializar_auto a)) ("transmisión".toList) =
      none := rfl
  have eT3 : obtenerCampo (filaDe encabezado (serializar_auto a)) ("transmision".toList) =
      none := rfl
  have eT4 : obtenerCampo (filaDe encabezado (serializar_auto a)) ("Transmision".toList) =
      none := rfl
  have hy := intToStr_ne_nil a.anio
  simp only [leerFila, eM, em, eMo, emo, eA, ea, eC1, eC2, eC3, eT1, eT2, eT3, eT4, pyOr,
    h1, h3, h5, h7, hy, if_neg, if_false, parseAnio_intToStr]
  simp only [sinEspaciosExtremos] at h2 h4 h6 h8
  simp [h1, h3, h5, h7, hy, h2, h4, h6, h8]

/-- C6: serializing a valid record to its CSV row in canonical column order
(year written as a plain decimal integer) and ingesting that row back
through `leer_csv` under the canonical header returns exactly the original
record, with no row skipped. -/
theorem leer_escribir_ida_vuelta (a : Auto) (h : autoValido a) :
    leer_csv [filaDe encabezado (serializar_auto a)] = ([a], 0) := by
  simp [leer_csv, leerFila_serializar a h]

theorem leer_escribir_ida_vuelta_testigo :
    autoValido autoToyota ∧
    leer_csv [filaDe encabezado (serializar_auto autoToyota)] = ([autoToyota], 0) :=
  ⟨⟨by decide, rfl, by decide, rfl, by decide, rfl, by decide, rfl⟩,
   leer_escribir_ida_vuelta autoToyota
     ⟨by decide, rfl, by decide, rfl, by decide, rfl, by decide, rfl⟩⟩

/-! ### Hierarchical views: grouping and rewriting -/

theorem dictAppend_busca (g : Directorio) (k0 : Str) (a : Auto) (k : Str) :
    buscarArchivo (dictAppend g k0 a) k =
      if k = k0 then some ((buscarArchivo g k).getD [] ++ [a]) else buscarArchivo g k := by
  induction g with
  | nil =>
    by_cases h : k = k0
    · subst h
      simp [dictAppend, buscarArchivo]
    · simp [dictAppend, buscarArchivo, h, Ne.symm h]
  | cons par g ih =>
    obtain ⟨k1, l1⟩ := par
    by_cases h1 : k1 = k0
    · subst h1
      by_cases h2 : k = k1
      · subst h2
        simp [dictAppend, buscarArchivo]
      · simp [dictAppend, buscarArchivo, h2, Ne.symm h2]
    · by_cases h2 : k = k1
      · subst h2
        simp [dictAppend, buscarArchivo, h1, Ne.symm h1]
      · simp [dictAppend, buscarArchivo, h1, h2, Ne.symm h2, ih]

theorem agrupar_busca_gen (clave : Auto → Str) (k : Str) :
    ∀ (autos : List Auto) (grupos : Directorio),
      buscarArchivo (autos.foldl (fun g a => dictAppend g (clave a) a) grupos) k =
        (match buscarArchivo grupos k, autos.filter (fun a => decide (clave a = k)) with
         | none, [] => none
         | o, l => some (o.getD [] ++ l)) := by
  intro autos
  induction autos with
  | nil =>
    intro grupos
    cases h : buscarArchivo grupos k <;> simp [h]
  | cons a autos ih =>
    intro grupos
    rw [List.foldl_cons, ih]
    by_cases hp : clave a = k
    · have hl : List.filter (fun b => decide (clave b = k)) (a :: autos) =
          a :: List.filter (fun b => decide (clave b = k)) autos := by
        simp [List.filter_cons, hp]
      have hb : buscarArchivo (dictAppend grupos (clave a) a) k =
          some ((buscarArchivo grupos k).getD [] ++ [a]) := by
        rw [dictAppend_busca, if_pos hp.symm]
      rw [hb, hl]
      cases h : buscarArchivo grupos k <;>
        cases hf : List.filter (fun b => decide (clave b = k)) autos <;>
        simp [h, hf]
    · have hl : List.filter (fun b => decide (clave b = k)) (a :: autos) =
          List.filter (fun b => decide (clave b = k)) autos := by
        simp [List.filter_cons, hp]
      have hb : buscarArchivo (dictAppend grupos (clave a) a) k = buscarArchivo grupos k := by
        rw [dictAppend_busca, if_neg (fun hh => hp hh.symm)]
      rw [hb, hl]

theorem agrupar_busca (clave : Auto → Str) (autos : List Auto) (k : Str) :
    buscarArchivo (agruparPor clave autos) k =
      (if autos.filter (fun a => decide (clave a = k)) = [] then none
       else some (autos.filter (fun a => decide (clave a = k)))) := by
  rw [agruparPor, agrupar_busca_gen]
  cases hf : autos.filter (fun a => decide (clave a = k)) <;> simp [buscarArchivo, hf]

theorem busca_none_iff (d : Directorio) (k : Str) :
    buscarArchivo d k = none ↔ k ∉ d.map Prod.fst := by
  induction d with
  | nil => simp [buscarArchivo]
  | cons par d ih =>
    obtain ⟨k1, l1⟩ := par
    by_cases h : k = k1
    · subst h
      simp [buscarArchivo]
    · simp [buscarArchivo, h, Ne.symm h, ih]

theorem busca_mem_de_nodup (d : Directorio) (hd : (d.map Prod.fst).Nodup) (k : Str)
    (l : List Auto) : (k, l) ∈ d ↔ buscarArchivo d k = some l := by
  induction d with
  | nil => simp [buscarArchivo]
  | cons par d ih =>
    obtain ⟨k1, l1⟩ := par
    simp only [List.map_cons, List.nodup_cons] at hd
    obtain ⟨hk1, hd⟩ := hd
    by_cases h : k = k1
    · subst h
      simp only [buscarArchivo, if_pos rfl, List.mem_cons]
      constructor
      · rintro (hh | hh)
        · cases hh
          rfl
        · exact absurd (List.mem_map.mpr ⟨(k, l), hh, rfl⟩) hk1
      · intro hs
        left
        rw [Option.some.inj hs]
    · simp only [buscarArchivo, if_neg (Ne.symm h), List.mem_cons]
      rw [← ih hd]
      constructor
      · rintro (hh | hh)
        · exact absurd (congrArg Prod.fst hh) h
        · exact hh
      · exact fun hh => Or.inr hh

theorem dictAppend_claves (g : Directorio) (k : Str) (a : Auto) :
    (dictAppend g k a).map Prod.fst =
      if k ∈ g.map Prod.fst then g.map Prod.fst else g.map Prod.fst ++ [k] := by
  induction g with
  | nil => simp [dictAppend]
  | cons par g ih =>
    obtain ⟨k1, l1⟩ := par
    by_cases h : k = k1
    · subst h
      simp [dictAppend]
    · by_cases hm : k ∈ g.map Prod.fst <;>
        simp [dictAppend, h, Ne.symm h, hm, ih]

theorem agrupar_claves_nodup_gen (clave : Auto → Str) :
    ∀ (autos : List Auto) (g : Directorio), (g.map Prod.fst).Nodup →
      ((autos.foldl (fun g a => dictAppend g (clave a) a) g).map Prod.fst).Nodup := by
  intro autos
  induction autos with
  | nil => exact fun g hg => hg
  | cons a autos ih =>
    intro g hg
    rw [List.foldl_cons]
    apply ih
    rw [dictAppend_claves]
    by_cases hm : clave a ∈ g.map Prod.fst
    · rw [if_pos hm]
      exact hg
    · rw [if_neg hm]
      simp [List.nodup_append, hg, hm]

theorem agrupar_claves_fuente (clave : Auto → Str) (autos : List Auto) (k : Str)
    (hk : k ∈ (agruparPor clave autos).map Prod.fst) : ∃ a ∈ autos, clave a = k := by
  have hn : buscarArchivo (agruparPor clave autos) k ≠ none :=
    fun hnone => (busca_none_iff _ _).mp hnone hk
  rw [agrupar_busca] at hn
  by_cases hf : autos.filter (fun a => decide (clave a = k)) = []
  · rw [if_pos hf] at hn
    exact absurd rfl hn
  · obtain ⟨a, ha⟩ := List.exists_mem_of_ne_nil _ hf
    have hm := List.mem_filter.mp ha
    exact ⟨a, hm.1, by simpa using hm.2⟩

theorem escribir_busca (dir : Directorio) (nombre : Str) (contenido : List Auto) (n : Str) :
    buscarArchivo (escribirArchivo dir nombre contenido) n =
      if n = nombre then some contenido else buscarArchivo dir n := by
  induction dir with
  | nil =>
    by_cases h : n = nombre
    · subst h
      simp [escribirArchivo, buscarArchivo]
    · simp [escribirArchivo, buscarArchivo, h, Ne.symm h]
  | cons par dir ih =>
    obtain ⟨n1, c1⟩ := par
    by_cases h1 : n1 = nombre
    · subst h1
      by_cases h2 : n = n1
      · subst h2
        simp [escribirArchivo, buscarArchivo]
      · simp [escribirArchivo, buscarArchivo, h2, Ne.symm h2]
    · by_cases h2 : n = n1
      · subst h2
        simp [escribirArchivo, buscarArchivo, h1, Ne.symm h1]
      · simp [escribirArchivo, buscarArchivo, h1, h2, Ne.symm h2, ih]

theorem foldl_escribir_no_tocado (gs : List (Str × List Auto)) :
    ∀ (dir : Directorio) (n : Str), (∀ g ∈ gs, n ≠ nombreArchivo g.1) →
      buscarArchivo (gs.foldl (fun d g => escribirArchivo d (nombreArchivo g.1) g.2) dir) n =
        buscarArchivo dir n := by
  induction gs with
  | nil =>
    intro dir n _
    rfl
  | cons g gs ih =>
    intro dir n hn
    rw [List.foldl_cons, ih _ n (fun g' hg' => hn g' (List.mem_cons_of_mem g hg')),
      escribir_busca, if_neg (hn g (List.mem_cons_self g gs))]

theorem foldl_escribir_escrito (gs : List (Str × List Auto)) :
    (gs.map (fun g => nombreArchivo g.1)).Nodup →
    ∀ (dir : Directorio) (k : Str) (l : List Auto), (k, l) ∈ gs →
      buscarArchivo (gs.foldl (fun d g => escribirArchivo d (nombreArchivo g.1) g.2) dir)
        (nombreArchivo k) = some l := by
  induction gs with
  | nil =>
    intro _ dir k l h
    simp at h
  | cons g gs ih =>
    intro hnodup dir k l hm
    simp only [List.map_cons, List.nodup_cons] at hnodup
    obtain ⟨hg1, hnodup⟩ := hnodup
    rw [List.foldl_cons]
    rcases List.mem_cons.mp hm with hh | hh
    · subst hh
      rw [foldl_escribir_no_tocado gs _ (nombreArchivo k)
          (fun g' hg' heq => hg1 (heq ▸ List.mem_map.mpr ⟨g', hg', rfl⟩)),
        escribir_busca, if_pos rfl]
    · exact ih hnodup _ k l hh

theorem agrupar_nombres_nodup (clave : Auto → Str) (autos : List Auto)
    (hinj : nombresInyectivos clave autos) :
    ((agruparPor clave autos).map (fun g => nombreArchivo g.1)).Nodup := by
  have hk : ((agruparPor clave autos).map Prod.fst).Nodup :=
    agrupar_claves_nodup_gen clave autos [] (by simp)
  have hmapa : (agruparPor clave autos).map (fun g => nombreArchivo g.1) =
      ((agruparPor clave autos).map Prod.fst).map nombreArchivo := by
    rw [List.map_map]
    rfl
  rw [hmapa]
  apply List.Nodup.map_on ?_ hk
  intro k1 hk1 k2 hk2 heq
  obtain ⟨a, ha, hak⟩ := agrupar_claves_fuente clave autos k1 hk1
  obtain ⟨b, hb, hbk⟩ := agrupar_claves_fuente clave autos k2 hk2
  have hlim : limpiar_nombre_archivo k1 = limpiar_nombre_archivo k2 :=
    List.append_cancel_right heq
  subst hak
  subst hbk
  exact hinj a ha b hb hlim

theorem organizar_por_grupo_sincroniza (clave : Auto → Str) (autos : List Auto)
    (dir : Directorio) (hinj : nombresInyectivos clave autos) :
    directorioSincronizado clave autos dir (organizar_por_grupo clave autos dir) := by
  have hnodupk : ((agruparPor clave autos).map Prod.fst).Nodup :=
    agrupar_claves_nodup_gen clave autos [] (by simp)
  have hnod := agrupar_nombres_nodup clave autos hinj
  unfold directorioSincronizado organizar_por_grupo
  constructor
  · intro a ha
    have hfil : autos.filter (fun b => decide (clave b = clave a)) ≠ [] := by
      intro hf
      have hmem : a ∈ autos.filter (fun b => decide (clave b = clave a)) :=
        List.mem_filter.mpr ⟨ha, by simp⟩
      rw [hf] at hmem
      simp at hmem
    have hbus : buscarArchivo (agruparPor clave autos) (clave a) =
        some (autos.filter (fun b => decide (clave b = clave a))) := by
      rw [agrupar_busca, if_neg hfil]
    have hmem : (clave a, autos.filter (fun b => decide (clave b = clave a))) ∈
        agruparPor clave autos := (busca_mem_de_nodup _ hnodupk _ _).mpr hbus
    exact foldl_escribir_escrito (agruparPor clave autos) hnod dir (clave a) _ hmem
  · intro nombre hnombre
    apply foldl_escribir_no_tocado
    intro g hg heq
    obtain ⟨a, ha, hak⟩ := agrupar_claves_fuente clave autos g.1
      (List.mem_map.mpr ⟨g, hg, rfl⟩)
    exact hnombre a ha (by rw [heq, hak])

/-- C2 (amended): one synchronization pass rewrites, in each of the three
derived trees, exactly one file per group value present in the current
record set, each holding exactly that group's records in input order
(assuming the sanitized file names of distinct present group values do not
collide) — but file names not written by this pass keep their previous
contents: a file of a group value that disappeared from the record set
survives with stale content. -/
theorem sincronizar_reescribe_sin_borrar (autos : List Auto) (s : Subgrupos)
    (hm : nombresInyectivos (fun a => a.marca) autos)
    (hc : nombresInyectivos (fun a => a.tipoCombustible) autos)
    (ht : nombresInyectivos (fun a => a.transmision) autos) :
    directorioSincronizado (fun a => a.marca) autos s.por_marca
      (sincronizar_estructura_jerarquica autos s).por_marca ∧
    directorioSincronizado (fun a => a.tipoCombustible) autos s.por_combustible
      (sincronizar_estructura_jerarquica autos s).por_combustible ∧
    directorioSincronizado (fun a => a.transmision) autos s.por_transmision
      (sincronizar_estructura_jerarquica autos s).por_transmision :=
  ⟨organizar_por_grupo_sincroniza (fun a => a.marca) autos s.por_marca hm,
   organizar_por_grupo_sincroniza (fun a => a.tipoCombustible) autos s.por_combustible hc,
   organizar_por_grupo_sincroniza (fun a => a.transmision) autos s.por_transmision ht⟩

theorem sincronizar_reescribe_sin_borrar_testigo :
    directorioSincronizado (fun a => a.marca) [autoGas, autoElec]
      (⟨[], [], []⟩ : Subgrupos).por_marca
      (sincronizar_estructura_jerarquica [autoGas, autoElec] ⟨[], [], []⟩).por_marca ∧
    directorioSincronizado (fun a => a.tipoCombustible) [autoGas, autoElec]
      (⟨[], [], []⟩ : Subgrupos).por_combustible
      (sincronizar_estructura_jerarquica [autoGas, autoElec] ⟨[], [], []⟩).por_combustible ∧
    directorioSincronizado (fun a => a.transmision) [autoGas, autoElec]
      (⟨[], [], []⟩ : Subgrupos).por_transmision
      (sincronizar_estructura_jerarquica [autoGas, autoElec] ⟨[], [], []⟩).por_transmision :=
  sincronizar_reescribe_sin_borrar [autoGas, autoElec] ⟨[], [], []⟩
    (by unfold nombresInyectivos; decide)
    (by unfold nombresInyectivos; decide)
    (by unfold nombresInyectivos; decide)

/-- C2 counterexample: synchronizing `[autoGas]` and then re-synchronizing
with the changed set `[autoElec]` leaves the by-fuel tree still holding
`Gasolina.csv` with the old records, although no record of the current set
has that fuel type — a stale file survives the second pass. -/
theorem sincronizar_deja_archivo_obsoleto :
    buscarArchivo
        (sincronizar_estructura_jerarquica [autoElec]
          (sincronizar_estructura_jerarquica [autoGas] ⟨[], [], []⟩)).por_combustible
        ("Gasolina.csv".toList) = some [autoGas] ∧
    ∀ a ∈ [autoElec], a.tipoCombustible ≠ "Gasolina".toList := by
  decide

/-! ### Sorting: permutation, order and stability of the insertion sort -/

theorem claveLe_total (x y : Str ⊕ Int) : claveLe x y ∨ claveLe y x := by
  cases x <;> cases y <;> simp [claveLe] <;> apply le_total

theorem claveLe_trans (x y z : Str ⊕ Int) (h1 : claveLe x y) (h2 : claveLe y z) :
    claveLe x z := by
  cases x <;> cases y <;> cases z <;> simp [claveLe] at * <;> exact le_trans h1 h2

theorem claveLe_neg_ne (x y : Str ⊕ Int) (h : ¬ claveLe x y) : y ≠ x := by
  cases x <;> cases y <;> simp [claveLe] at *
  · exact ne_of_lt h
  · exact ne_of_lt h

theorem filter_orderedInsert_pos {α : Type} (r : α → α → Prop) [DecidableRel r]
    (p : α → Bool) (x : α) (hpx : p x = true) (hx : ∀ y, ¬ r x y → p y = false) :
    ∀ l : List α, (List.orderedInsert r x l).filter p = x :: l.filter p := by
  intro l
  induction l with
  | nil => simp [List.orderedInsert, hpx]
  | cons b l ih =>
    by_cases hr : r x b
    · simp [List.orderedInsert, hr, List.filter_cons, hpx]
    · have hb : p b = false := hx b hr
      simp [List.orderedInsert, hr, List.filter_cons, hb, ih]

theorem filter_orderedInsert_neg {α : Type} (r : α → α → Prop) [DecidableRel r]
    (p : α → Bool) (x : α) (hpx : p x = false) :
    ∀ l : List α, (List.orderedInsert r x l).filter p = l.filter p := by
  intro l
  induction l with
  | nil => simp [List.orderedInsert, hpx]
  | cons b l ih =>
    by_cases hr : r x b
    · simp [List.orderedInsert, hr, List.filter_cons, hpx]
    · simp [List.orderedInsert, hr, List.filter_cons, ih]

theorem filter_insertionSort {α : Type} (r : α → α → Prop) [DecidableRel r] (p : α → Bool)
    (h : ∀ x y, p x = true → ¬ r x y → p y = false) :
    ∀ l : List α, (List.insertionSort r l).filter p = l.filter p := by
  intro l
  induction l with
  | nil => rfl
  | cons x l ih =>
    rw [List.insertionSort]
    by_cases hp : p x = true
    · rw [filter_orderedInsert_pos r p x hp (fun y => h x y hp), ih, List.filter_cons,
        if_pos hp]
    · have hp' : p x = false := Bool.eq_false_iff.mpr hp
      rw [filter_orderedInsert_neg r p x hp', ih, List.filter_cons, if_neg hp]

theorem pySorted_perm (f : CampoOrden) (desc : Bool) (autos : List Auto) :
    (pySorted f desc autos).Perm autos := by
  unfold pySorted
  split <;> exact List.perm_insertionSort _ _

theorem pySorted_sorted (f : CampoOrden) (desc : Bool) (autos : List Auto) :
    List.Sorted (relOrden f desc) (pySorted f desc autos) := by
  cases desc with
  | false =>
    have hrel : relOrden f false = fun a b => claveLe (claveOrden f a) (claveOrden f b) := by
      funext a b
      simp [relOrden]
    rw [hrel]
    unfold pySorted
    rw [if_neg (by simp)]
    haveI : IsTotal Auto (fun a b => claveLe (claveOrden f a) (claveOrden f b)) :=
      ⟨fun a b => claveLe_total _ _⟩
    haveI : IsTrans Auto (fun a b => claveLe (claveOrden f a) (claveOrden f b)) :=
      ⟨fun a b c => claveLe_trans _ _ _⟩
    exact List.sorted_insertionSort _ _
  | true =>
    have hrel : relOrden f true = fun a b => claveLe (claveOrden f b) (claveOrden f a) := by
      funext a b
      simp [relOrden]
    rw [hrel]
    unfold pySorted
    rw [if_pos rfl]
    haveI : IsTotal Auto (fun a b => claveLe (claveOrden f b) (claveOrden f a)) :=
      ⟨fun a b => claveLe_total _ _⟩
    haveI : IsTrans Auto (fun a b => claveLe (claveOrden f b) (claveOrden f a)) :=
      ⟨fun a b c hab hbc => claveLe_trans _ _ _ hbc hab⟩
    exact List.sorted_insertionSort _ _

theorem pySorted_filter (f : CampoOrden) (desc : Bool) (autos : List Auto) (v : Str ⊕ Int) :
    (pySorted f desc autos).filter (fun a => decide (claveOrden f a = v)) =
      autos.filter (fun a => decide (claveOrden f a = v)) := by
  unfold pySorted
  split
  · apply filter_insertionSort
    intro x y hpx hr
    have hv : claveOrden f x = v := by simpa using hpx
    have hne : claveOrden f x ≠ claveOrden f y := claveLe_neg_ne _ _ hr
    have hy : claveOrden f y ≠ v := fun hh => hne (hv.trans hh.symm)
    simp [hy]
  · apply filter_insertionSort
    intro x y hpx hr
    have hv : claveOrden f x = v := by simpa using hpx
    have hne : claveOrden f y ≠ claveOrden f x := claveLe_neg_ne _ _ hr
    have hy : claveOrden f y ≠ v := fun hh => hne (hh.trans hv.symm)
    simp [hy]

/-- C4: `ordenar_autos` answers `none` (the invalid-field error) exactly when
the normalized field name contains none of the recognized tokens, and
otherwise displays a permutation of the input that is sorted by the detected
canonical field — normalized text lexicographically, the year numerically,
descending when requested — and stable: for every key value, the records
with that key appear in the same order as in the input. -/
theorem ordenar_autos_spec (autos : List Auto) (campo : Str) (descendente : Bool) :
    (ordenar_autos autos campo descendente = none ↔
      contiene ("marca".toList) (normalizar campo) = false ∧
      contiene ("modelo".toList) (normalizar campo) = false ∧
      contiene ("año".toList) (normalizar campo) = false ∧
      contiene ("ano".toList) (normalizar campo) = false ∧
      contiene ("combustible".toList) (normalizar campo) = false ∧
      contiene ("tipo".toList) (normalizar campo) = false ∧
      contiene ("transmision".toList) (normalizar campo) = false) ∧
    (∀ out, ordenar_autos autos campo descendente = some out →
      ∃ f, detectar_campo campo = some f ∧
        out.Perm autos ∧
        List.Sorted (relOrden f descendente) out ∧
        ∀ v : Str ⊕ Int, out.filter (fun a => decide (claveOrden f a = v)) =
          autos.filter (fun a => decide (claveOrden f a = v))) := by
  constructor
  · cases h1 : contiene ("marca".toList) (normalizar campo) <;>
      cases h2 : contiene ("modelo".toList) (normalizar campo) <;>
      cases h3 : contiene ("año".toList) (normalizar campo) <;>
      cases h4 : contiene ("ano".toList) (normalizar campo) <;>
      cases h5 : contiene ("combustible".toList) (normalizar campo) <;>
      cases h6 : contiene ("tipo".toList) (normalizar campo) <;>
      cases h7 : contiene ("transmision".toList) (normalizar campo) <;>
      · simp only [ordenar_autos, detectar_campo, h1, h2, h3, h4, h5, h6, h7]
        simp
  · intro out hout
    unfold ordenar_autos at hout
    cases hdf : detectar_campo campo with
    | none =>
      rw [hdf] at hout
      exact absurd hout (by simp)
    | some f =>
      rw [hdf] at hout
      have hsome : some (pySorted f descendente autos) = some out := hout
      have heq : out = pySorted f descendente autos := (Option.some.inj hsome).symm
      subst heq
      exact ⟨f, rfl, pySorted_perm f descendente autos, pySorted_sorted f descendente autos,
        fun v => pySorted_filter f descendente autos v⟩

theorem ordenar_autos_spec_testigo :
    ∃ f, detectar_campo ("año".toList) = some f ∧
      ([autoFord, autoToyota, autoTesla] : List Auto).Perm [autoToyota, autoFord, autoTesla] ∧
      List.Sorted (relOrden f false) [autoFord, autoToyota, autoTesla] ∧
      ∀ v : Str ⊕ Int,
        ([autoFord, autoToyota, autoTesla] : List Auto).filter
            (fun a => decide (claveOrden f a = v)) =
          ([autoToyota, autoFord, autoTesla] : List Auto).filter
            (fun a => decide (claveOrden f a = v)) :=
  (ordenar_autos_spec [autoToyota, autoFord, autoTesla] ("año".toList) false).2
    [autoFord, autoToyota, autoTesla] (by decide)

/-! ### Statistics: recursions, counting dictionary, ordering -/

theorem sumar_anios_eq (autos : List Auto) :
    ∀ (n i : Nat), autos.length - i = n →
      sumar_anios_recursivo autos i = ((autos.drop i).map (fun a => a.anio)).sum := by
  intro n
  induction n with
  | zero =>
    intro i h
    have hle : autos.length ≤ i := by omega
    rw [sumar_anios_recursivo, dif_pos hle, List.drop_eq_nil_of_le hle]
    simp
  | succ k ih =>
    intro i h
    have hlt : i < autos.length := by omega
    rw [sumar_anios_recursivo, dif_neg (by omega)]
    simp only [List.get_eq_getElem]
    rw [List.drop_eq_getElem_cons hlt, List.map_cons, List.sum_cons, ih (i + 1) (by omega)]

theorem contar_recursivo_eq (clave : Auto → Str) (autos : List Auto) :
    ∀ (n i : Nat) (conteo : List (Str × Nat)), autos.length - i = n →
      contar_recursivo clave autos i conteo =
        (autos.drop i).foldl (fun d a => dictIncr d (clave a)) conteo := by
  intro n
  induction n with
  | zero =>
    intro i conteo h
    have hle : autos.length ≤ i := by omega
    rw [contar_recursivo, dif_pos hle, List.drop_eq_nil_of_le hle]
    rfl
  | succ k ih =>
    intro i conteo h
    have hlt : i < autos.length := by omega
    rw [contar_recursivo, dif_neg (by omega)]
    simp only [List.get_eq_getElem]
    rw [List.drop_eq_getElem_cons hlt, List.foldl_cons, ih (i + 1) _ (by omega)]

theorem dictIncr_busca (d : List (Str × Nat)) (k k' : Str) :
    buscarConteo (dictIncr d k) k' =
      if k' = k then some ((buscarConteo d k').getD 0 + 1) else buscarConteo d k' := by
  induction d with
  | nil =>
    by_cases h : k' = k
    · subst h
      simp [dictIncr, buscarConteo]
    · simp [dictIncr, buscarConteo, h, Ne.symm h]
  | cons par d ih =>
    obtain ⟨k1, c1⟩ := par
    by_cases h1 : k1 = k
    · subst h1
      by_cases h2 : k' = k1
      · subst h2
        simp [dictIncr, buscarConteo]
      · simp [dictIncr, buscarConteo, h2, Ne.symm h2]
    · by_cases h2 : k' = k1
      · subst h2
        simp [dictIncr, buscarConteo, h1, Ne.symm h1]
      · simp [dictIncr, buscarConteo, h1, h2, Ne.symm h2, ih]

theorem conteo_foldl_busca (clave : Auto → Str) (k : Str) :
    ∀ (autos : List Auto) (d : List (Str × Nat)),
      buscarConteo (autos.foldl (fun d a => dictIncr d (clave a)) d) k =
        (match buscarConteo d k, autos.countP (fun a => decide (clave a = k)) with
         | none, 0 => none
         | o, c => some (o.getD 0 + c)) := by
  intro autos
  induction autos with
  | nil =>
    intro d
    cases h : buscarConteo d k <;> simp [h]
  | cons a autos ih =>
    intro d
    rw [List.foldl_cons, ih]
    by_cases hp : clave a = k
    · have hc : List.countP (fun b => decide (clave b = k)) (a :: autos) =
          List.countP (fun b => decide (clave b = k)) autos + 1 := by
        simp [List.countP_cons, hp]
      have hb : buscarConteo (dictIncr d (clave a)) k =
          some ((buscarConteo d k).getD 0 + 1) := by
        rw [dictIncr_busca, if_pos hp.symm]
      rw [hb, hc]
      cases h : buscarConteo d k <;>
        cases hn : List.countP (fun b => decide (clave b = k)) autos <;>
        simp [h, hn] <;> omega
    · have hc : List.countP (fun b => decide (clave b = k)) (a :: autos) =
          List.countP (fun b => decide (clave b = k)) autos := by
        simp [List.countP_cons, hp]
      have hb : buscarConteo (dictIncr d (clave a)) k = buscarConteo d k := by
        rw [dictIncr_busca, if_neg (fun hh => hp hh.symm)]
      rw [hb, hc]

theorem conteo_busca (clave : Auto → Str) (autos : List Auto) (k : Str) :
    buscarConteo (autos.foldl (fun d a => dictIncr d (clave a)) []) k =
      (if autos.countP (fun a => decide (clave a = k)) = 0 then none
       else some (autos.countP (fun a => decide (clave a = k)))) := by
  rw [conteo_foldl_busca]
  cases hc : autos.countP (fun a => decide (clave a = k)) with
  | zero => simp [buscarConteo]
  | succ m => simp [buscarConteo]

theorem conteo_busca_none_iff (d : List (Str × Nat)) (k : Str) :
    buscarConteo d k = none ↔ k ∉ d.map Prod.fst := by
  induction d with
  | nil => simp [buscarConteo]
  | cons par d ih =>
    obtain ⟨k1, c1⟩ := par
    by_cases h : k = k1
    · subst h
      simp [buscarConteo]
    · simp [buscarConteo, h, Ne.symm h, ih]

theorem conteo_mem_de_nodup (d : List (Str × Nat)) (hd : (d.map Prod.fst).Nodup) (k : Str)
    (c : Nat) : (k, c) ∈ d ↔ buscarConteo d k = some c := by
  induction d with
  | nil => simp [buscarConteo]
  | cons par d ih =>
    obtain ⟨k1, c1⟩ := par
    simp only [List.map_cons, List.nodup_cons] at hd
    obtain ⟨hk1, hd⟩ := hd
    by_cases h : k = k1
    · subst h
      simp only [buscarConteo, if_pos rfl, List.mem_cons]
      constructor
      · rintro (hh | hh)
        · cases hh
          rfl
        · exact absurd (List.mem_map.mpr ⟨(k, c), hh, rfl⟩) hk1
      · intro hs
        left
        rw [Option.some.inj hs]
    · simp only [buscarConteo, if_neg (Ne.symm h), List.mem_cons]
      rw [← ih hd]
      constructor
      · rintro (hh | hh)
        · exact absurd (congrArg Prod.fst hh) h
        · exact hh
      · exact fun hh => Or.inr hh

theorem dictIncr_claves (d : List (Str × Nat)) (k : Str) :
    (dictIncr d k).map Prod.fst =
      if k ∈ d.map Prod.fst then d.map Prod.fst else d.map Prod.fst ++ [k] := by
  induction d with
  | nil => simp [dictIncr]
  | cons par d ih =>
    obtain ⟨k1, c1⟩ := par
    by_cases h : k = k1
    · subst h
      simp [dictIncr]
    · by_cases hm : k ∈ d.map Prod.fst <;>
        simp [dictIncr, h, Ne.symm h, hm, ih]

theorem conteo_claves_nodup_gen (clave : Auto → Str) :
    ∀ (autos : List Auto) (d : List (Str × Nat)), (d.map Prod.fst).Nodup →
      ((autos.foldl (fun d a => dictIncr d (clave a)) d).map Prod.fst).Nodup := by
  intro autos
  induction autos with
  | nil => exact fun d hd => hd
  | cons a autos ih =>
    intro d hd
    rw [List.foldl_cons]
    apply ih
    rw [dictIncr_claves]
    by_cases hm : clave a ∈ d.map Prod.fst
    · rw [if_pos hm]
      exact hd
    · rw [if_neg hm]
      simp [List.nodup_append, hd, hm]

theorem pyTupleLe_total (p q : Str × Nat) : pyTupleLe p q ∨ pyTupleLe q p := by
  unfold pyTupleLe
  rcases lt_trichotomy p.1 q.1 with h | h | h
  · exact Or.inl (Or.inl h)
  · rcases le_total p.2 q.2 with hle | hle
    · exact Or.inl (Or.inr ⟨h, hle⟩)
    · exact Or.inr (Or.inr ⟨h.symm, hle⟩)
  · exact Or.inr (Or.inl h)

theorem pyTupleLe_trans (p q r : Str × Nat) (h1 : pyTupleLe p q) (h2 : pyTupleLe q r) :
    pyTupleLe p r := by
  unfold pyTupleLe at *
  rcases h1 with h1 | ⟨h1e, h1le⟩ <;> rcases h2 with h2 | ⟨h2e, h2le⟩
  · exact Or.inl (lt_trans h1 h2)
  · exact Or.inl (by rw [← h2e]; exact h1)
  · exact Or.inl (by rw [h1e]; exact h2)
  · exact Or.inr ⟨h1e.trans h2e, le_trans h1le h2le⟩

theorem ordenarItems_perm (d : List (Str × Nat)) : (ordenarItems d).Perm d :=
  List.perm_insertionSort pyTupleLe d

theorem ordenarItems_sorted (d : List (Str × Nat)) :
    List.Sorted pyTupleLe (ordenarItems d) := by
  haveI : IsTotal (Str × Nat) pyTupleLe := ⟨pyTupleLe_total⟩
  haveI : IsTrans (Str × Nat) pyTupleLe := ⟨pyTupleLe_trans⟩
  exact List.sorted_insertionSort pyTupleLe d

theorem claves_ordenadas (items : List (Str × Nat)) (hs : List.Sorted pyTupleLe items)
    (hn : (items.map Prod.fst).Nodup) : List.Sorted (· < ·) (items.map Prod.fst) := by
  rw [List.Sorted, List.pairwise_map]
  have hne : List.Pairwise (fun p q : Str × Nat => p.1 ≠ q.1) items :=
    List.pairwise_map.mp hn
  refine (List.Pairwise.and hs hne).imp ?_
  rintro p q ⟨hle, hnee⟩
  rcases hle with h | ⟨he, -⟩
  · exact h
  · exact absurd he hnee

theorem foldl_primero (mejor : Auto → Auto → Prop) [DecidableRel mejor]
    (hirr : ∀ a, ¬ mejor a a)
    (htrans : ∀ a b c, mejor a b → mejor b c → mejor a c)
    (hconn : ∀ a b c, mejor a b → ¬ mejor c b → mejor a c) :
    ∀ (xs : List Auto) (x : Auto),
      esPrimeroPor mejor (x :: xs) (xs.foldl (fun b a => if mejor a b then a else b) x) := by
  intro xs
  induction xs with
  | nil =>
    intro x
    refine ⟨[], [], rfl, ?_, ?_⟩
    · intro a ha
      rw [List.mem_singleton] at ha
      rw [ha]
      exact hirr x
    · intro b hb
      simp at hb
  | cons y ys ih =>
    intro x
    rw [List.foldl_cons]
    by_cases hyx : mejor y x
    · rw [if_pos hyx]
      generalize hg : ys.foldl (fun b a => if mejor a b then a else b) y = r
      have ihy := ih y
      rw [hg] at ihy
      obtain ⟨l1, l2, hdec, hmin, hfirst⟩ := ihy
      refine ⟨x :: l1, l2, ?_, ?_, ?_⟩
      · rw [List.cons_append, ← hdec]
      · intro a ha
        rcases List.mem_cons.mp ha with ha | ha
        · rw [ha]
          intro har
          exact hmin y (List.mem_cons_self y ys) (htrans y x r hyx har)
        · exact hmin a ha
      · intro b hb
        rcases List.mem_cons.mp hb with hb | hb
        · rw [hb]
          cases l1 with
          | nil =>
            rw [List.nil_append] at hdec
            injection hdec with h1 _
            rw [← h1]
            exact hyx
          | cons c l1' =>
            rw [List.cons_append] at hdec
            injection hdec with h1 _
            have hry : mejor r y := by
              rw [h1]
              exact hfirst c (List.mem_cons_self c l1')
            exact htrans r y x hry hyx
        · exact hfirst b hb
    · rw [if_neg hyx]
      generalize hg : ys.foldl (fun b a => if mejor a b then a else b) x = r
      have ihx := ih x
      rw [hg] at ihx
      obtain ⟨l1, l2, hdec, hmin, hfirst⟩ := ihx
      cases l1 with
      | nil =>
        rw [List.nil_append] at hdec
        injection hdec with h1 h2
        refine ⟨[], y :: ys, ?_, ?_, ?_⟩
        · rw [List.nil_append, ← h1]
        · intro a ha
          rcases List.mem_cons.mp ha with ha | ha
          · rw [ha, ← h1]
            exact hirr x
          · rcases List.mem_cons.mp ha with ha | ha
            · rw [ha, ← h1]
              exact hyx
            · exact hmin a (List.mem_cons_of_mem x ha)
        · intro b hb
          simp at hb
      | cons c l1' =>
        rw [List.cons_append] at hdec
        injection hdec with h1 h2
        refine ⟨x :: y :: l1', l2, ?_, ?_, ?_⟩
        · rw [List.cons_append, List.cons_append, h2]
        · intro a ha
          rcases List.mem_cons.mp ha with ha | ha
          · rw [ha]
            exact hmin x (List.mem_cons_self x ys)
          · rcases List.mem_cons.mp ha with ha | ha
            · rw [ha]
              intro har
              have hrx : mejor r x := by
                rw [h1]
                exact hfirst c (List.mem_cons_self c l1')
              exact hyx (htrans y r x har hrx)
            · exact hmin a (List.mem_cons_of_mem x ha)
        · intro b hb
          rcases List.mem_cons.mp hb with hb | hb
          · rw [hb, h1]
            exact hfirst c (List.mem_cons_self c l1')
          · rcases List.mem_cons.mp hb with hb | hb
            · rw [hb]
              have hrx : mejor r x := by
                rw [h1]
                exact hfirst c (List.mem_cons_self c l1')
              exact hconn r x y hrx hyx
            · exact hfirst b (List.mem_cons_of_mem c hb)

theorem grupo_de_contar (clave : Auto → Str) (autos : List Auto) :
    grupoCorrecto clave autos (ordenarItems (contar_recursivo clave autos 0 [])) := by
  have hfold : contar_recursivo clave autos 0 [] =
      autos.foldl (fun d a => dictIncr d (clave a)) [] := by
    rw [contar_recursivo_eq clave autos autos.length 0 [] (by omega), List.drop_zero]
  rw [hfold]
  have hnodup : ((autos.foldl (fun d a => dictIncr d (clave a)) []).map Prod.fst).Nodup :=
    conteo_claves_nodup_gen clave autos [] (by simp)
  have hperm := ordenarItems_perm (autos.foldl (fun d a => dictIncr d (clave a)) [])
  have hkeysperm := hperm.map (Prod.fst)
  have hnodup2 : ((ordenarItems (autos.foldl (fun d a => dictIncr d (clave a)) [])).map
      Prod.fst).Nodup := hkeysperm.nodup_iff.mpr hnodup
  refine ⟨claves_ordenadas _ (ordenarItems_sorted _) hnodup2, ?_, ?_⟩
  · intro p hp
    have hmem : p ∈ autos.foldl (fun d a => dictIncr d (clave a)) [] := hperm.mem_iff.mp hp
    have hlook : buscarConteo (autos.foldl (fun d a => dictIncr d (clave a)) []) p.1 =
        some p.2 := (conteo_mem_de_nodup _ hnodup p.1 p.2).mp hmem
    rw [conteo_busca] at hlook
    by_cases h0 : autos.countP (fun a => decide (clave a = p.1)) = 0
    · rw [if_pos h0] at hlook
      exact absurd hlook (by simp)
    · rw [if_neg h0] at hlook
      exact (Option.some.inj hlook).symm
  · intro k
    constructor
    · intro hk
      have hk0 : k ∈ (autos.foldl (fun d a => dictIncr d (clave a)) []).map Prod.fst :=
        hkeysperm.mem_iff.mp hk
      have hne : buscarConteo (autos.foldl (fun d a => dictIncr d (clave a)) []) k ≠ none :=
        fun h => (conteo_busca_none_iff _ k).mp h hk0
      rw [conteo_busca] at hne
      by_cases h0 : autos.countP (fun a => decide (clave a = k)) = 0
      · rw [if_pos h0] at hne
        exact absurd rfl hne
      · have hpos : 0 < autos.countP (fun a => decide (clave a = k)) := by omega
        obtain ⟨a, ha, hd⟩ := List.countP_pos_iff.mp hpos
        exact ⟨a, ha, by simpa using hd⟩
    · rintro ⟨a, ha, hak⟩
      have hpos : 0 < autos.countP (fun b => decide (clave b = k)) :=
        List.countP_pos_iff.mpr ⟨a, ha, by simp [hak]⟩
      have hlook : buscarConteo (autos.foldl (fun d a => dictIncr d (clave a)) []) k ≠ none := by
        rw [conteo_busca, if_neg (by omega)]
        simp
      have hk0 : k ∈ (autos.foldl (fun d a => dictIncr d (clave a)) []).map Prod.fst := by
        by_contra hnk
        exact hlook ((conteo_busca_none_iff _ k).mpr hnk)
      exact hkeysperm.mem_iff.mpr hk0

/-- C5: `mostrar_estadisticas` answers the empty list with the explicit
no-data message (`none`; the guarded mean never divides by zero); on a
non-empty list it reports the record with the minimum year and the record
with the maximum year (ties broken by first occurrence in input order), the
arithmetic mean of the years truncated toward zero, and the three per-field
counts, each listing sorted ascending by group key with the exact count of
each present value. -/
theorem mostrar_estadisticas_spec (autos : List Auto) :
    (autos = [] → mostrar_estadisticas autos = none) ∧
    (autos ≠ [] → ∃ st, mostrar_estadisticas autos = some st ∧
      esPrimeroPor (fun a b => a.anio < b.anio) autos st.mas_antiguo ∧
      esPrimeroPor (fun a b => b.anio < a.anio) autos st.mas_nuevo ∧
      st.promedio_anio =
        Int.tdiv ((autos.map (fun a => a.anio)).sum) (autos.length : Int) ∧
      grupoCorrecto (fun a => a.marca) autos st.por_marca ∧
      grupoCorrecto (fun a => a.tipoCombustible) autos st.por_combustible ∧
      grupoCorrecto (fun a => a.transmision) autos st.por_transmision) := by
  constructor
  · intro h
    rw [h]
    rfl
  · intro hne
    obtain ⟨x, xs, rfl⟩ := List.exists_cons_of_ne_nil hne
    refine ⟨_, rfl, ?_, ?_, ?_, ?_, ?_, ?_⟩
    · exact foldl_primero (fun a b => a.anio < b.anio)
        (fun a => lt_irrefl _)
        (fun a b c h1 h2 => lt_trans h1 h2)
        (fun a b c h1 h2 => by omega)
        xs x
    · exact foldl_primero (fun a b => b.anio < a.anio)
        (fun a => lt_irrefl _)
        (fun a b c h1 h2 => lt_trans h2 h1)
        (fun a b c h1 h2 => by omega)
        xs x
    · show Int.tdiv (sumar_anios_recursivo (x :: xs) 0) (((x :: xs).length : Nat) : Int) =
        Int.tdiv (((x :: xs).map (fun a => a.anio)).sum) (((x :: xs).length : Nat) : Int)
      rw [sumar_anios_eq (x :: xs) (x :: xs).length 0 (by omega), List.drop_zero]
    · exact grupo_de_contar (fun a => a.marca) (x :: xs)
    · exact grupo_de_contar (fun a => a.tipoCombustible) (x :: xs)
    · exact grupo_de_contar (fun a => a.transmision) (x :: xs)

theorem mostrar_estadisticas_spec_testigo :
    mostrar_estadisticas [] = none ∧
    (∃ st, mostrar_estadisticas [autoToyota, autoFord] = some st ∧
      esPrimeroPor (fun a b => a.anio < b.anio) [autoToyota, autoFord] st.mas_antiguo ∧
      esPrimeroPor (fun a b => b.anio < a.anio) [autoToyota, autoFord] st.mas_nuevo ∧
      st.promedio_anio =
        Int.tdiv ((([autoToyota, autoFord] : List Auto).map (fun a => a.anio)).sum)
          (([autoToyota, autoFord] : List Auto).length : Int) ∧
      grupoCorrecto (fun a => a.marca) [autoToyota, autoFord] st.por_marca ∧
      grupoCorrecto (fun a => a.tipoCombustible) [autoToyota, autoFord] st.por_combustible ∧
      grupoCorrecto (fun a => a.transmision) [autoToyota, autoFord] st.por_transmision) :=
  ⟨(mostrar_estadisticas_spec []).1 rfl,
   (mostrar_estadisticas_spec [autoToyota, autoFord]).2 (by decide)⟩
